import Mathlib

/-!
# Examples/IPlugVisage/showcase.cpp

A shallow embedding of the three classes of `showcase.cpp` (`DebugInfo`, `Overlay`,
`Showcase`) and the properties of the overlay tick, the on-animate callback, the body
bounds, the debug text layout, the keyboard shortcuts and the screenshot delegation.

Conventions of the embedding:

* `int` values are `Int`; C++ `/` on `int` is `Int.tdiv` (truncation), the conversion
  `int → size_t` is reduction modulo `2^64`, and the conversion back to `int` is the
  two's-complement wrap `toInt32`.
* `float` values are `F32`: the finite values are rationals, every arithmetic result is
  rounded to binary32 (24 bit significand, round to nearest, ties to even, gradual
  underflow below `2^-126`, overflow to infinity from `2^128`), and `nan` and the two
  infinities are explicit.  The sign of zero is not represented; no operation of this
  file observes it (`-0.0f == 0.0f` is true in C++ as well).  Every `float` operation
  rounds on its own (no fused multiply-add, no wider intermediate format); at the
  progress values `0`, `0.25`, `0.5` and `1` the product of the zoom expression is exact,
  so a fused evaluation gives the same uniforms there.
* Calls into the toolkit (canvas commands, `redraw()`, `setVisible`, `undo()`, `redo()`,
  `takeScreenshot`, the callback list) are recorded, in program order, in a list of
  `Event`s returned next to the new state.
-/

namespace Visage

/-! ## binary32 arithmetic -/

/-- A C++ `float`: not-a-number, a signed infinity, or a finite value. -/
inductive F32 where
  | nan
  | inf (neg : Bool)
  | fin (q : ℚ)
deriving DecidableEq

namespace F32

/-- Exponent of the unit in the last place of a magnitude `a`: `⌊log₂ a⌋ - 23` for normal
numbers, and `-149` throughout the subnormal range. -/
def expo (a : ℚ) : ℤ := max (Int.log 2 a - 23) (-149)

/-- Nearest integer, ties to the even neighbour. -/
def roundHalfEven (x : ℚ) : ℤ :=
  let f := ⌊x⌋
  let r := x - f
  if r < 1 / 2 then f else if 1 / 2 < r then f + 1 else if f % 2 = 0 then f else f + 1

/-- Round a magnitude to the binary32 grid (exponent unbounded above). -/
def rndMag (a : ℚ) : ℚ := roundHalfEven (a / 2 ^ expo a) * 2 ^ expo a

/-- Round an exact result to binary32: nearest-even, overflow to infinity. -/
def round (q : ℚ) : F32 :=
  let r := rndMag |q|
  if (2 : ℚ) ^ (128 : ℕ) ≤ r then inf (decide (q < 0)) else fin (if q < 0 then -r else r)

/-- The literal `0.0f`. -/
def zero : F32 := fin 0

/-- The literal `1.0f`. -/
def one : F32 := fin 1

/-- C++ `operator==` on `float`: false whenever an operand is NaN. -/
def eq : F32 → F32 → Bool
  | fin a, fin b => decide (a = b)
  | inf s, inf t => s == t
  | _, _ => false

/-- Unary minus. -/
def neg : F32 → F32
  | nan => nan
  | inf s => inf (!s)
  | fin q => fin (-q)

/-- C++ `operator+` on `float`. -/
def add : F32 → F32 → F32
  | nan, _ => nan
  | _, nan => nan
  | inf s, inf t => if s = t then inf s else nan
  | inf s, fin _ => inf s
  | fin _, inf t => inf t
  | fin a, fin b => round (a + b)

/-- C++ `operator-` on `float`. -/
def sub (x y : F32) : F32 := add x (neg y)

/-- C++ `operator*` on `float`. -/
def mul : F32 → F32 → F32
  | nan, _ => nan
  | _, nan => nan
  | inf s, inf t => inf (xor s t)
  | inf s, fin q => if q = 0 then nan else inf (xor s (decide (q < 0)))
  | fin q, inf t => if q = 0 then nan else inf (xor (decide (q < 0)) t)
  | fin a, fin b => round (a * b)

/-- Conversion `int → float`. -/
def ofInt (i : Int) : F32 := round (i : ℚ)

/-- Conversion `float → int`: truncation toward zero, undefined (`none`) when the
truncated value is not an `int` or the operand is not finite. -/
def toInt? : F32 → Option Int
  | fin q =>
    let t : Int := if 0 ≤ q then ⌊q⌋ else ⌈q⌉
    if -(2 : Int) ^ 31 ≤ t ∧ t < (2 : Int) ^ 31 then some t else none
  | _ => none

end F32

/-! ## Machine integers -/

/-- Conversion of an `int` to `size_t` (64 bit). -/
def toSizeT (i : Int) : Nat := (i % (2 : Int) ^ 64).toNat

/-- Conversion of an integer to `int` (32 bit two's complement). -/
def toInt32 (n : Int) : Int := (n + (2 : Int) ^ 31) % (2 : Int) ^ 32 - (2 : Int) ^ 31

/-! ## Toolkit calls -/

/-- Frames of the showcase that receive `redraw()` / `setVisible`. -/
inductive FrameId where
  | overlay
  | examples
  | debugInfo
deriving DecidableEq

/-- Palette colours declared with `THEME_COLOR`. -/
inductive ThemeColor where
  | BackgroundColor
  | OverlayBody
  | OverlayBorder
deriving DecidableEq

/-- Text justification; the file only uses `visage::Font::kLeft`. -/
inductive Justification where
  | kLeft
deriving DecidableEq

/-- One call into the toolkit. -/
inductive Event where
  | setColor (argb : Nat)
  | fill (x y w h : Int)
  | setPaletteColor (c : ThemeColor)
  | roundedRectangle (x y w h : Int) (rounding : F32)
  | roundedRectangleBorder (x y w h : Int) (rounding thickness : F32)
  | text (s : String) (fontSize : Int) (j : Justification) (x y w h : Int)
  | redraw (f : FrameId)
  | setVisible (f : FrameId) (v : Bool)
  | onAnimate (amount : F32)
  | undo
  | redo
  | takeScreenshot (host : Nat) (path : String)
deriving DecidableEq

/-- Undefined behaviour reached by the C++ code. -/
inductive Fault where
  | divisionByZero
  | floatToIntOutOfRange
deriving DecidableEq

/-! ## DebugInfo -/

namespace DebugInfo

/-- The statement `int line_height = height() / info.size();`: `height()` is converted to
`size_t`, the division is unsigned, the quotient is converted back to `int`. -/
def lineHeight (height : Int) (n : Nat) : Except Fault Int :=
  if n = 0 then .error .divisionByZero
  else .ok (toInt32 ((toSizeT height / n : Nat) : Int))

/-- The statement `int text_height = line_height * 0.65f;`. -/
def textHeight (lineHeight : Int) : Except Fault Int :=
  match F32.toInt? (F32.mul (F32.ofInt lineHeight) (F32.round (13 / 20))) with
  | some t => .ok t
  | none => .error .floatToIntOutOfRange

/-- The loop `for (int i = 0; i < info.size(); ++i) canvas.text(info[i], ...)`, from
index `i` on. -/
def textLoop (font lineHeight width : Int) : List String → Nat → List Event
  | [], _ => []
  | s :: rest, i =>
    Event.text s font .kLeft lineHeight (toInt32 (lineHeight * i)) width lineHeight
      :: textLoop font lineHeight width rest (i + 1)

/-- The method `DebugInfo::draw`; `info` is the result of `canvas.debugInfo()`. -/
def draw (width height : Int) (info : List String) : Except Fault (List Event) := do
  let lh ← lineHeight height info.length
  let th ← textHeight lh
  pure ([Event.setColor 0x88000000, Event.fill 0 0 width height, Event.setColor 0xffffffff]
    ++ textLoop th lh width info 0 ++ [Event.redraw .debugInfo])

end DebugInfo

/-! ## Overlay -/

/-- The class `visage::Bounds`. -/
structure Bounds where
  x : Int
  y : Int
  width : Int
  height : Int
deriving DecidableEq

/-- Modelled from the spec: what one draw tick observes of the animation utility, whose
class is not part of the file: the value returned by `update()`, and the answers of
`isTargeting()` and `isAnimating()` after that update. -/
structure AnimationTick where
  value : F32
  isTargeting : Bool
  isAnimating : Bool

/-- The frame state of the overlay that `showcase.cpp` reads and writes. -/
structure Overlay where
  width : Int
  height : Int
  visible : Bool

namespace Overlay

/-- The method `Overlay::getBodyBounds`. -/
def getBodyBounds (o : Overlay) : Bounds :=
  let x_border := Int.tdiv o.width 4
  let y_border := Int.tdiv o.height 4
  { x := x_border, y := y_border,
    width := o.width - 2 * x_border, height := o.height - 2 * y_border }

/-- The method `Overlay::draw`; `rounding` is the value of `getBodyRounding()`, that is
`paletteValue(kOverlayRounding)`. -/
def draw (o : Overlay) (a : AnimationTick) (rounding : F32) : Overlay × List Event :=
  let overlay_amount := a.value
  let hide : Bool := !a.isTargeting && F32.eq overlay_amount F32.zero
  let o1 : Overlay := if hide then { o with visible := false } else o
  let body := o1.getBodyBounds
  (o1,
    (if hide then [Event.setVisible .overlay false] else [])
    ++ [Event.setPaletteColor .OverlayBody,
        Event.roundedRectangle body.x body.y body.width body.height rounding,
        Event.setPaletteColor .OverlayBorder,
        Event.roundedRectangleBorder body.x body.y body.width body.height rounding F32.one,
        Event.onAnimate overlay_amount]
    ++ (if a.isAnimating then [Event.redraw .overlay] else []))

end Overlay

/-! ## Showcase -/

/-- Key codes that `Showcase::keyPress` distinguishes. -/
inductive KeyCode where
  | D
  | Z
  | Y
  | other (raw : Nat)
deriving DecidableEq

/-- The part of `visage::KeyEvent` read by `Showcase::keyPress`. -/
structure KeyEvent where
  keyCode : KeyCode
  isMainModifier : Bool
  isShiftDown : Bool

/-- A frame above the showcase in the widget tree. -/
structure Ancestor where
  id : Nat
  isApplicationEditor : Bool
deriving DecidableEq

/-- Modelled from the spec: `findParent<visage::ApplicationEditor>()`, which is not part of
the file, locates an ancestor host capable of capturing a screenshot: the nearest frame of
that class on the parent chain (innermost first), or a null pointer. -/
def findParent (chain : List Ancestor) : Option Ancestor :=
  chain.find? (fun a => a.isApplicationEditor)

/-- The state of `Showcase` that `showcase.cpp` reads and writes: the overlay, the
visibility of the debug frame, the blur post-effect and the uniforms of the shader
post-effect. -/
structure Showcase where
  overlay : Overlay
  debugVisible : Bool
  blurAmount : F32
  uniforms : String → Option F32

namespace Showcase

/-- The constant `kMaxZoom = 0.075f` of the on-animate lambda. -/
def kMaxZoom : F32 := F32.round (3 / 40)

/-- The call `ShaderPostEffect::setUniformValue(name, value)`. -/
def setUniformValue (u : String → Option F32) (name : String) (value : F32) :
    String → Option F32 :=
  fun n => if n = name then some value else u n

/-- The lambda assigned to `overlay_.onAnimate()`. -/
def onAnimate (s : Showcase) (overlay_amount : F32) : Showcase × List Event :=
  ({ s with
      blurAmount := overlay_amount
      uniforms :=
        setUniformValue
          (setUniformValue s.uniforms "u_zoom"
            (F32.add (F32.mul kMaxZoom (F32.sub F32.one overlay_amount)) F32.one))
          "u_alpha" (F32.mul overlay_amount overlay_amount) },
    [Event.redraw .examples])

/-- The lambda assigned to `examples_->onShowOverlay()`. -/
def onShowOverlay (s : Showcase) : Showcase × List Event :=
  ({ s with overlay := { s.overlay with visible := true } }, [Event.setVisible .overlay true])

/-- The method `Showcase::toggleDebug`. -/
def toggleDebug (s : Showcase) : Showcase × List Event :=
  ({ s with debugVisible := !s.debugVisible }, [Event.setVisible .debugInfo (!s.debugVisible)])

/-- The lambda assigned to `examples_->onScrenshot()`; `chain` is the parent chain of the
showcase. -/
def onScreenshot (s : Showcase) (chain : List Ancestor) (file_path : String) :
    Showcase × List Event :=
  match findParent chain with
  | some parent => (s, [Event.takeScreenshot parent.id file_path])
  | none => (s, [])

/-- The method `Showcase::keyPress`: new state, toolkit calls, and the returned flag. -/
def keyPress (s : Showcase) (key : KeyEvent) : Showcase × List Event × Bool :=
  let modifier := key.isMainModifier
  if key.keyCode = KeyCode.D ∧ modifier = true ∧ key.isShiftDown = true then
    ((toggleDebug s).1, (toggleDebug s).2, true)
  else if key.keyCode = KeyCode.Z ∧ modifier = true then
    (s, [Event.undo], true)
  else if key.keyCode = KeyCode.Y ∧ modifier = true then
    (s, [Event.redo], true)
  else
    (s, [], false)

/-- One draw tick of the overlay inside the showcase: `Overlay::draw` with the
on-animate lambda run at the point where the callback list is invoked. -/
def drawOverlay (s : Showcase) (a : AnimationTick) (rounding : F32) : Showcase × List Event :=
  let r := s.overlay.draw a rounding
  let s1 : Showcase := { s with overlay := r.1 }
  ((onAnimate s1 a.value).1,
    r.2.flatMap (fun e =>
      match e with
      | Event.onAnimate v => e :: (onAnimate s1 v).2
      | _ => [e]))

/-- The showcase right after construction (overlay and debug frame hidden, no uniform
set yet) and a first layout on an 800 x 600 surface; the blur amount of a fresh
`BlurPostEffect` is not fixed by the file and is taken as `1.0f`. -/
def constructed : Showcase :=
  { overlay := { width := 800, height := 600, visible := false }
    debugVisible := false
    blurAmount := F32.one
    uniforms := fun _ => none }

end Showcase

/-- The two canvas calls of `Overlay::draw` that paint the body: the rounded rectangle
and its border. -/
def Event.isBodyCall : Event → Bool
  | .roundedRectangle _ _ _ _ _ => true
  | .roundedRectangleBorder _ _ _ _ _ _ => true
  | _ => false

/-- The `canvas.text` calls. -/
def Event.isTextCall : Event → Bool
  | .text _ _ _ _ _ _ _ => true
  | _ => false

/-! ## Rounding lemmas -/

namespace F32

theorem roundHalfEven_mono {x y : ℚ} (h : x ≤ y) : roundHalfEven x ≤ roundHalfEven y := by
  have hfl : ⌊x⌋ ≤ ⌊y⌋ := Int.floor_mono h
  have hx0 := Int.floor_le x
  have hx1 := Int.lt_floor_add_one x
  have hy0 := Int.floor_le y
  have hy1 := Int.lt_floor_add_one y
  rcases lt_or_eq_of_le hfl with hlt | heq
  · have h1 : roundHalfEven x ≤ ⌊x⌋ + 1 := by
      unfold roundHalfEven
      simp only
      split_ifs <;> omega
    have h2 : ⌊y⌋ ≤ roundHalfEven y := by
      unfold roundHalfEven
      simp only
      split_ifs <;> omega
    omega
  · unfold roundHalfEven
    simp only
    rw [heq] at hx0 hx1 ⊢
    split_ifs <;> first | omega | (exfalso; linarith)

theorem roundHalfEven_intCast (n : ℤ) : roundHalfEven (n : ℚ) = n := by
  unfold roundHalfEven
  simp

theorem roundHalfEven_nonneg {x : ℚ} (h : 0 ≤ x) : 0 ≤ roundHalfEven x := by
  have := roundHalfEven_mono h
  rwa [show (0 : ℚ) = ((0 : ℤ) : ℚ) by simp, roundHalfEven_intCast] at this

theorem two_zpow_pos (e : ℤ) : (0 : ℚ) < 2 ^ e := zpow_pos (by norm_num) e

theorem rndMag_nonneg {a : ℚ} (h : 0 ≤ a) : 0 ≤ rndMag a := by
  unfold rndMag
  have h1 : 0 ≤ a / 2 ^ expo a := div_nonneg h (two_zpow_pos _).le
  have h2 := roundHalfEven_nonneg h1
  have : (0 : ℚ) ≤ (roundHalfEven (a / 2 ^ expo a) : ℚ) := by exact_mod_cast h2
  exact mul_nonneg this (two_zpow_pos _).le

theorem expo_mono {x y : ℚ} (hx : 0 < x) (h : x ≤ y) : expo x ≤ expo y := by
  unfold expo
  have := Int.log_mono_right (b := 2) hx h
  omega

theorem lt_expo {a : ℚ} : a < 2 ^ (expo a + 24) := by
  have h1 := Int.lt_zpow_succ_log_self (R := ℚ) (b := 2) (by norm_num) a
  have h2 : Int.log 2 a + 1 ≤ expo a + 24 := by unfold expo; omega
  calc a < ((2 : ℕ) : ℚ) ^ (Int.log 2 a + 1) := h1
    _ = (2 : ℚ) ^ (Int.log 2 a + 1) := by norm_num
    _ ≤ 2 ^ (expo a + 24) := zpow_le_zpow_right₀ (by norm_num) h2

theorem rndMag_le_pow (a : ℚ) : rndMag a ≤ 2 ^ (expo a + 24) := by
  unfold rndMag
  have hp := two_zpow_pos (expo a)
  have h1 : a / 2 ^ expo a ≤ (((2 : ℤ) ^ (24 : ℕ) : ℤ) : ℚ) := by
    rw [div_le_iff₀ hp]
    have := lt_expo (a := a)
    rw [zpow_add₀ (by norm_num : (2 : ℚ) ≠ 0)] at this
    push_cast
    have e : ((2 : ℚ) ^ (24 : ℤ)) = 2 ^ (24 : ℕ) := by norm_num
    rw [e] at this
    linarith [mul_comm ((2 : ℚ) ^ expo a) (2 ^ (24 : ℕ))]
  have h2 := roundHalfEven_mono h1
  rw [roundHalfEven_intCast] at h2
  have h3 : (roundHalfEven (a / 2 ^ expo a) : ℚ) ≤ (((2 : ℤ) ^ (24 : ℕ) : ℤ) : ℚ) := by
    exact_mod_cast h2
  calc (roundHalfEven (a / 2 ^ expo a) : ℚ) * 2 ^ expo a
      ≤ (((2 : ℤ) ^ (24 : ℕ) : ℤ) : ℚ) * 2 ^ expo a := mul_le_mul_of_nonneg_right h3 hp.le
    _ = 2 ^ (expo a + 24) := by
      rw [zpow_add₀ (by norm_num : (2 : ℚ) ≠ 0)]
      push_cast
      norm_num
      ring

theorem pow_le_rndMag {a : ℚ} (ha : 0 < a) (hn : -149 < expo a) :
    2 ^ (expo a + 23) ≤ rndMag a := by
  unfold rndMag
  have hp := two_zpow_pos (expo a)
  have he : expo a = Int.log 2 a - 23 := by unfold expo at hn ⊢; omega
  have h0 := Int.zpow_log_le_self (R := ℚ) (b := 2) (by norm_num) ha
  have h0' : (2 : ℚ) ^ (expo a + 23) ≤ a := by
    rw [he]
    simpa using h0
  have h1 : (((2 : ℤ) ^ (23 : ℕ) : ℤ) : ℚ) ≤ a / 2 ^ expo a := by
    rw [le_div_iff₀ hp]
    rw [zpow_add₀ (by norm_num : (2 : ℚ) ≠ 0)] at h0'
    push_cast
    have e : ((2 : ℚ) ^ (23 : ℤ)) = 2 ^ (23 : ℕ) := by norm_num
    rw [e] at h0'
    linarith [mul_comm ((2 : ℚ) ^ expo a) (2 ^ (23 : ℕ))]
  have h2 := roundHalfEven_mono h1
  rw [roundHalfEven_intCast] at h2
  have h3 : (((2 : ℤ) ^ (23 : ℕ) : ℤ) : ℚ) ≤ (roundHalfEven (a / 2 ^ expo a) : ℚ) := by
    exact_mod_cast h2
  calc (2 : ℚ) ^ (expo a + 23) = (((2 : ℤ) ^ (23 : ℕ) : ℤ) : ℚ) * 2 ^ expo a := by
        rw [zpow_add₀ (by norm_num : (2 : ℚ) ≠ 0)]
        push_cast
        norm_num
        ring
    _ ≤ (roundHalfEven (a / 2 ^ expo a) : ℚ) * 2 ^ expo a :=
        mul_le_mul_of_nonneg_right h3 hp.le

theorem rndMag_mono {x y : ℚ} (hx : 0 ≤ x) (h : x ≤ y) : rndMag x ≤ rndMag y := by
  rcases eq_or_lt_of_le hx with h0 | hpos
  · have : rndMag x = 0 := by
      rw [← h0]; unfold rndMag; simp [roundHalfEven]
    rw [this]
    exact rndMag_nonneg (hx.trans h)
  · have he := expo_mono hpos h
    rcases eq_or_lt_of_le he with heq | hlt
    · unfold rndMag
      rw [heq]
      have hp := two_zpow_pos (expo y)
      have h1 : x / 2 ^ expo y ≤ y / 2 ^ expo y := div_le_div_of_nonneg_right h hp.le
      have h2 := roundHalfEven_mono h1
      have h3 : (roundHalfEven (x / 2 ^ expo y) : ℚ) ≤ (roundHalfEven (y / 2 ^ expo y) : ℚ) := by
        exact_mod_cast h2
      exact mul_le_mul_of_nonneg_right h3 hp.le
    · have hy : -149 < expo y := by
        have : -149 ≤ expo x := by unfold expo; omega
        omega
      calc rndMag x ≤ 2 ^ (expo x + 24) := rndMag_le_pow x
        _ ≤ 2 ^ (expo y + 23) := zpow_le_zpow_right₀ (by norm_num) (by omega)
        _ ≤ rndMag y := pow_le_rndMag (hpos.trans_le h) hy

theorem expo_eq {a : ℚ} (k : ℤ) (h1 : 2 ^ k ≤ a) (h2 : a < 2 ^ (k + 1)) :
    Int.log 2 a = k := by
  have ha : 0 < a := (two_zpow_pos k).trans_le h1
  have h3 : k ≤ Int.log 2 a := by
    rw [← Int.zpow_le_iff_le_log (by norm_num) ha]
    simpa using h1
  have h4 : Int.log 2 a < k + 1 := by
    rw [← Int.lt_zpow_iff_log_lt (by norm_num) ha]
    simpa using h2
  omega


theorem roundHalfEven_eq {x : ℚ} (m : ℤ) (h1 : (m : ℚ) - 1 / 2 < x) (h2 : x < m + 1 / 2) :
    roundHalfEven x = m := by
  have hx0 := Int.floor_le x
  have hx1 := Int.lt_floor_add_one x
  have ha : ((m - 1 : ℤ) : ℚ) < ((⌊x⌋ + 1 : ℤ) : ℚ) := by push_cast; linarith
  have hb : ((⌊x⌋ : ℤ) : ℚ) < ((m + 1 : ℤ) : ℚ) := by push_cast; linarith
  have ha' : m - 1 < ⌊x⌋ + 1 := by exact_mod_cast ha
  have hb' : ⌊x⌋ < m + 1 := by exact_mod_cast hb
  unfold roundHalfEven
  simp only
  rcases (show ⌊x⌋ = m ∨ ⌊x⌋ = m - 1 by omega) with h | h
  · rw [h] at hx0 hx1 ⊢
    split_ifs <;> first | omega | (exfalso; linarith)
  · rw [h] at hx0 hx1 ⊢
    push_cast at hx0 hx1 ⊢
    split_ifs <;> first | omega | (exfalso; linarith)

theorem rndMag_eval {a : ℚ} (k m : ℤ) (h1 : 2 ^ k ≤ a) (h2 : a < 2 ^ (k + 1))
    (hk : -126 ≤ k) (hm1 : (m : ℚ) - 1 / 2 < a / 2 ^ (k - 23))
    (hm2 : a / 2 ^ (k - 23) < m + 1 / 2) : rndMag a = m * 2 ^ (k - 23) := by
  have he : expo a = k - 23 := by
    unfold expo
    rw [expo_eq k h1 h2]
    omega
  unfold rndMag
  rw [he, roundHalfEven_eq m hm1 hm2]

theorem rndMag_zero : rndMag 0 = 0 := by
  unfold rndMag; simp [roundHalfEven]

end F32

/-! ## Overlay tick -/

/-- The comparison `overlay_amount == 0.0f` holds exactly for the value zero. -/
theorem F32.eq_zero_iff (v : F32) : F32.eq v F32.zero = true ↔ v = F32.zero := by
  cases v <;> simp [F32.eq, F32.zero]

/-- The on-animate lambda run inside a tick leaves the overlay as `Overlay::draw` left
it, and the only toolkit call it adds to the tick is the redraw of the examples frame. -/
theorem Showcase.drawOverlay_overlay (s : Showcase) (a : AnimationTick) (rounding : F32) :
    (s.drawOverlay a rounding).1.overlay = (s.overlay.draw a rounding).1 ∧
    (∀ v, Event.setVisible .overlay v ∈ (s.drawOverlay a rounding).2 ↔
      Event.setVisible .overlay v ∈ (s.overlay.draw a rounding).2) ∧
    (Event.redraw .overlay ∈ (s.drawOverlay a rounding).2 ↔
      Event.redraw .overlay ∈ (s.overlay.draw a rounding).2) := by
  refine ⟨rfl, ?_, ?_⟩
  · intro v
    cases ht : a.isTargeting <;> cases han : a.isAnimating <;>
      by_cases hv : F32.eq a.value F32.zero = true <;>
      simp [Showcase.drawOverlay, Showcase.onAnimate, Overlay.draw, ht, han, hv]
  · cases ht : a.isTargeting <;> cases han : a.isAnimating <;>
      by_cases hv : F32.eq a.value F32.zero = true <;>
      simp [Showcase.drawOverlay, Showcase.onAnimate, Overlay.draw, ht, han, hv]

/-- C1: on every draw tick `Overlay::draw` clears the visible flag (calls
`setVisible(false)`) if and only if the value returned by the animation update is exactly
`0.0` and the animation is not targeting; then the flag is false afterwards, and in every
other case the overlay, its visible flag included, is left as it was; the on-animate
lambda of the showcase, run inside the tick, does not change this. -/
theorem Overlay.draw_clears_visible_iff (s : Showcase) (a : AnimationTick) (rounding : F32) :
    (Event.setVisible .overlay false ∈ (s.overlay.draw a rounding).2 ↔
      (a.value = F32.zero ∧ a.isTargeting = false)) ∧
    ((a.value = F32.zero ∧ a.isTargeting = false) →
      (s.overlay.draw a rounding).1.visible = false ∧
      (s.drawOverlay a rounding).1.overlay.visible = false) ∧
    (¬ (a.value = F32.zero ∧ a.isTargeting = false) →
      (s.overlay.draw a rounding).1 = s.overlay ∧
      (s.drawOverlay a rounding).1.overlay = s.overlay ∧
      (∀ v, Event.setVisible .overlay v ∉ (s.overlay.draw a rounding).2) ∧
      ∀ v, Event.setVisible .overlay v ∉ (s.drawOverlay a rounding).2) := by
  have hz := F32.eq_zero_iff a.value
  have hs := Showcase.drawOverlay_overlay s a rounding
  rw [hs.1]
  simp only [hs.2.1]
  by_cases hv : a.value = F32.zero <;> cases ht : a.isTargeting <;>
    cases han : a.isAnimating <;>
    simp [Overlay.draw, ht, han, hv, hz.mpr, F32.eq_zero_iff]

/-- The theorem for C1 at a settled tick (value `0.0`, not targeting) of a visible
overlay: the flag is cleared. -/
theorem Overlay.draw_clears_visible_iff_witness :
    ((F32.zero = F32.zero ∧ false = false) ∧
    (Overlay.draw { Showcase.constructed.overlay with visible := true }
      ⟨F32.zero, false, false⟩ (F32.fin 25)).1.visible = false) ∧
    (¬ (F32.fin (1 / 2) = F32.zero ∧ true = false) ∧
    (Overlay.draw { Showcase.constructed.overlay with visible := true }
      ⟨F32.fin (1 / 2), true, true⟩ (F32.fin 25)).1.visible = true) :=
  ⟨⟨⟨rfl, rfl⟩,
    ((Overlay.draw_clears_visible_iff
      { Showcase.constructed with
        overlay := { Showcase.constructed.overlay with visible := true } }
      ⟨F32.zero, false, false⟩ (F32.fin 25)).2.1 ⟨rfl, rfl⟩).1⟩,
   ⟨by simp,
    congrArg Overlay.visible ((Overlay.draw_clears_visible_iff
      { Showcase.constructed with
        overlay := { Showcase.constructed.overlay with visible := true } }
      ⟨F32.fin (1 / 2), true, true⟩ (F32.fin 25)).2.2 (by simp)).1⟩⟩

/-- C2: on every draw tick `Overlay::draw` requests another redraw exactly when the
animation is still animating after the update of that tick (the on-animate lambda of the
showcase adds no redraw of the overlay); on a tick where the animation has settled (is not
animating) at exactly `0.0` and is not targeting, the draw clears the visible flag and
requests no redraw of the overlay. -/
theorem Overlay.draw_redraw_iff_animating (s : Showcase) (a : AnimationTick) (rounding : F32) :
    (Event.redraw .overlay ∈ (s.overlay.draw a rounding).2 ↔ a.isAnimating = true) ∧
    (Event.redraw .overlay ∈ (s.drawOverlay a rounding).2 ↔ a.isAnimating = true) ∧
    (a.value = F32.zero → a.isTargeting = false → a.isAnimating = false →
      (s.overlay.draw a rounding).1.visible = false ∧
      Event.setVisible .overlay false ∈ (s.overlay.draw a rounding).2 ∧
      (∀ f, Event.redraw f ∉ (s.overlay.draw a rounding).2) ∧
      Event.redraw .overlay ∉ (s.drawOverlay a rounding).2) := by
  have hz := F32.eq_zero_iff a.value
  have hs := Showcase.drawOverlay_overlay s a rounding
  rw [hs.2.2]
  by_cases hv : a.value = F32.zero <;> cases ht : a.isTargeting <;>
    cases han : a.isAnimating <;>
    simp [Overlay.draw, ht, han, hv, hz.mpr, F32.eq_zero_iff]

/-- The theorem for C2 at a settled tick of a visible overlay: flag cleared, no redraw. -/
theorem Overlay.draw_redraw_iff_animating_witness :
    (Overlay.draw { Showcase.constructed.overlay with visible := true }
      ⟨F32.zero, false, false⟩ (F32.fin 25)).1.visible = false ∧
    ∀ f, Event.redraw f ∉
      (Overlay.draw { Showcase.constructed.overlay with visible := true }
        ⟨F32.zero, false, false⟩ (F32.fin 25)).2 :=
  ⟨((Overlay.draw_redraw_iff_animating
      { Showcase.constructed with
        overlay := { Showcase.constructed.overlay with visible := true } }
      ⟨F32.zero, false, false⟩ (F32.fin 25)).2.2 rfl rfl rfl).1,
   ((Overlay.draw_redraw_iff_animating
      { Showcase.constructed with
        overlay := { Showcase.constructed.overlay with visible := true } }
      ⟨F32.zero, false, false⟩ (F32.fin 25)).2.2 rfl rfl rfl).2.2.1⟩

/-! ## Body bounds -/

/-- Truncating division by four is the floor for a non-negative dividend. -/
theorem tdiv_four_of_nonneg {w : Int} (h : 0 ≤ w) : Int.tdiv w 4 = w / 4 :=
  Int.tdiv_eq_ediv h (by decide)

/-- C7: for a surface of width `w ≥ 0` and height `h ≥ 0`, `Overlay::getBodyBounds` is the
surface inset by a quarter on each side: `x = ⌊w/4⌋`, `y = ⌊h/4⌋`, body width
`w - 2⌊w/4⌋`, body height `h - 2⌊h/4⌋`, so `2x + width = w` and `2y + height = h`; and on
every tick, whatever the animation reports, the body calls of `Overlay::draw` are the
rounded rectangle and the border of exactly this rectangle. -/
theorem Overlay.getBodyBounds_inset (o : Overlay) (hw : 0 ≤ o.width) (hh : 0 ≤ o.height) :
    o.getBodyBounds =
      { x := o.width / 4, y := o.height / 4,
        width := o.width - 2 * (o.width / 4), height := o.height - 2 * (o.height / 4) } ∧
    2 * o.getBodyBounds.x + o.getBodyBounds.width = o.width ∧
    2 * o.getBodyBounds.y + o.getBodyBounds.height = o.height ∧
    ∀ (a : AnimationTick) (rounding : F32),
      (o.draw a rounding).2.filter Event.isBodyCall =
        [Event.roundedRectangle (o.width / 4) (o.height / 4)
            (o.width - 2 * (o.width / 4)) (o.height - 2 * (o.height / 4)) rounding,
         Event.roundedRectangleBorder (o.width / 4) (o.height / 4)
            (o.width - 2 * (o.width / 4)) (o.height - 2 * (o.height / 4)) rounding F32.one] := by
  have hx := tdiv_four_of_nonneg hw
  have hy := tdiv_four_of_nonneg hh
  refine ⟨?_, ?_, ?_, ?_⟩
  · simp [Overlay.getBodyBounds, hx, hy]
  · simp only [Overlay.getBodyBounds]; omega
  · simp only [Overlay.getBodyBounds]; omega
  · intro a rounding
    cases ht : a.isTargeting <;> cases han : a.isAnimating <;>
      by_cases hv : F32.eq a.value F32.zero = true <;>
      simp [Overlay.draw, Overlay.getBodyBounds, Event.isBodyCall, ht, han, hv, hx, hy]

/-- The theorem for C7 on an 801 x 600 surface: the body is `(200, 150, 401, 300)`. -/
theorem Overlay.getBodyBounds_inset_witness :
    Overlay.getBodyBounds ⟨801, 600, true⟩ = { x := 200, y := 150, width := 401, height := 300 } :=
  (Overlay.getBodyBounds_inset ⟨801, 600, true⟩ (by decide) (by decide)).1

/-! ## Keyboard shortcuts -/

/-- C5: in every state, a press of D with the main modifier and Shift flips the visibility
of the debug frame, calls neither `undo()` nor `redo()`, leaves the rest of the state
alone and returns true; a press of D without the main modifier returns false and leaves
the state, the debug visibility included, unchanged. -/
theorem Showcase.keyPress_D (s : Showcase) (key : KeyEvent) (hD : key.keyCode = KeyCode.D) :
    (key.isMainModifier = true → key.isShiftDown = true →
      (s.keyPress key).1.debugVisible = !s.debugVisible ∧
      (s.keyPress key).1.overlay = s.overlay ∧
      (s.keyPress key).2.1 = [Event.setVisible .debugInfo (!s.debugVisible)] ∧
      Event.undo ∉ (s.keyPress key).2.1 ∧ Event.redo ∉ (s.keyPress key).2.1 ∧
      (s.keyPress key).2.2 = true) ∧
    (key.isMainModifier = false →
      (s.keyPress key).2.2 = false ∧ (s.keyPress key).1 = s ∧
      (s.keyPress key).1.debugVisible = s.debugVisible ∧ (s.keyPress key).2.1 = []) := by
  constructor
  · intro hm hs
    simp [Showcase.keyPress, Showcase.toggleDebug, hD, hm, hs]
  · intro hm
    simp [Showcase.keyPress, hD, hm]

/-- The theorem for C5 on the freshly constructed showcase: modifier+Shift+D shows the
debug frame and is consumed. -/
theorem Showcase.keyPress_D_witness :
    (Showcase.constructed.keyPress ⟨KeyCode.D, true, true⟩).1.debugVisible = true ∧
    (Showcase.constructed.keyPress ⟨KeyCode.D, true, true⟩).2.2 = true ∧
    (Showcase.constructed.keyPress ⟨KeyCode.D, false, true⟩).2.2 = false :=
  ⟨((Showcase.keyPress_D Showcase.constructed ⟨KeyCode.D, true, true⟩ rfl).1 rfl rfl).1,
   ((Showcase.keyPress_D Showcase.constructed ⟨KeyCode.D, true, true⟩ rfl).1 rfl rfl).2.2.2.2.2,
   ((Showcase.keyPress_D Showcase.constructed ⟨KeyCode.D, false, true⟩ rfl).2 rfl).1⟩

/-- C6: `Showcase::keyPress` returns true if and only if the event is D with main
modifier and Shift, Z with main modifier, or Y with main modifier (whatever Shift is for Z
and Y); in the first case exactly `toggleDebug` runs, in the second exactly `undo()`, in
the third exactly `redo()`; every other event, main modifier + D without Shift included,
returns false, calls nothing and leaves the state unchanged. -/
theorem Showcase.keyPress_consumed_iff (s : Showcase) (key : KeyEvent) :
    ((s.keyPress key).2.2 = true ↔
      (key.keyCode = KeyCode.D ∧ key.isMainModifier = true ∧ key.isShiftDown = true) ∨
      (key.keyCode = KeyCode.Z ∧ key.isMainModifier = true) ∨
      (key.keyCode = KeyCode.Y ∧ key.isMainModifier = true)) ∧
    ((key.keyCode = KeyCode.D ∧ key.isMainModifier = true ∧ key.isShiftDown = true) →
      (s.keyPress key).1 = (s.toggleDebug).1 ∧ (s.keyPress key).2.1 = (s.toggleDebug).2 ∧
      (s.keyPress key).1.debugVisible = !s.debugVisible ∧
      Event.undo ∉ (s.keyPress key).2.1 ∧ Event.redo ∉ (s.keyPress key).2.1) ∧
    ((key.keyCode = KeyCode.Z ∧ key.isMainModifier = true) →
      (s.keyPress key).1 = s ∧ (s.keyPress key).2.1 = [Event.undo]) ∧
    ((key.keyCode = KeyCode.Y ∧ key.isMainModifier = true) →
      (s.keyPress key).1 = s ∧ (s.keyPress key).2.1 = [Event.redo]) ∧
    ((s.keyPress key).2.2 = false → (s.keyPress key).1 = s ∧ (s.keyPress key).2.1 = []) ∧
    ((key.keyCode = KeyCode.D ∧ key.isMainModifier = true ∧ key.isShiftDown = false) →
      (s.keyPress key).2.2 = false) := by
  rcases key with ⟨kc, m, sh⟩
  cases kc <;> cases m <;> cases sh <;> simp [Showcase.keyPress, Showcase.toggleDebug]

/-- The theorem for C6 on the freshly constructed showcase: modifier+Z is consumed and
calls `undo()` only; modifier+D without Shift is not consumed. -/
theorem Showcase.keyPress_consumed_iff_witness :
    (Showcase.constructed.keyPress ⟨KeyCode.Z, true, true⟩).2.1 = [Event.undo] ∧
    (Showcase.constructed.keyPress ⟨KeyCode.D, true, false⟩).2.2 = false :=
  ⟨((Showcase.keyPress_consumed_iff Showcase.constructed ⟨KeyCode.Z, true, true⟩).2.2.1
      ⟨rfl, rfl⟩).2,
   (Showcase.keyPress_consumed_iff Showcase.constructed ⟨KeyCode.D, true, false⟩).2.2.2.2.2
      ⟨rfl, rfl, rfl⟩⟩

/-! ## Screenshot delegation -/

/-- C10: the screenshot lambda delegates if and only if the parent chain holds an
`ApplicationEditor`: with one it calls `takeScreenshot` of the nearest such ancestor
exactly once, with the file path it was given, and makes no other call; with none it makes
no call at all; in both cases it returns (the lambda is a total function) and the showcase
state is unchanged. -/
theorem Showcase.onScreenshot_delegates_iff (s : Showcase) (chain : List Ancestor)
    (file_path : String) :
    ((∃ host path, Event.takeScreenshot host path ∈ (s.onScreenshot chain file_path).2) ↔
      ∃ p ∈ chain, p.isApplicationEditor = true) ∧
    ((∃ p ∈ chain, p.isApplicationEditor = true) →
      ∃ p ∈ chain, p.isApplicationEditor = true ∧ findParent chain = some p ∧
        (s.onScreenshot chain file_path).2 = [Event.takeScreenshot p.id file_path]) ∧
    ((¬ ∃ p ∈ chain, p.isApplicationEditor = true) →
      (s.onScreenshot chain file_path).2 = []) ∧
    (s.onScreenshot chain file_path).1 = s := by
  cases hf : findParent chain with
  | none =>
    have hnone : ∀ p ∈ chain, p.isApplicationEditor = false := by
      intro p hp
      have := List.find?_eq_none.mp hf p hp
      simpa using this
    refine ⟨?_, ?_, ?_, ?_⟩
    · simp only [Showcase.onScreenshot, hf]
      constructor
      · rintro ⟨_, _, h⟩; simp at h
      · rintro ⟨p, hp, hpe⟩; rw [hnone p hp] at hpe; simp at hpe
    · rintro ⟨p, hp, hpe⟩; rw [hnone p hp] at hpe; simp at hpe
    · intro _; simp [Showcase.onScreenshot, hf]
    · simp [Showcase.onScreenshot, hf]
  | some q =>
    have hq : q.isApplicationEditor = true := by
      have := List.find?_some hf
      simpa using this
    have hmem : q ∈ chain := List.mem_of_find?_eq_some hf
    refine ⟨?_, ?_, ?_, ?_⟩
    · simp only [Showcase.onScreenshot, hf]
      constructor
      · intro _; exact ⟨q, hmem, hq⟩
      · intro _; exact ⟨q.id, file_path, by simp⟩
    · intro _; exact ⟨q, hmem, hq, rfl, by simp [Showcase.onScreenshot, hf]⟩
    · intro h; exact absurd ⟨q, hmem, hq⟩ h
    · simp [Showcase.onScreenshot, hf]

/-- The theorem for C10 with no `ApplicationEditor` above the showcase: no call. -/
theorem Showcase.onScreenshot_delegates_iff_witness :
    (Showcase.constructed.onScreenshot [⟨1, false⟩, ⟨2, false⟩] "shot.png").2 = [] :=
  (Showcase.onScreenshot_delegates_iff Showcase.constructed [⟨1, false⟩, ⟨2, false⟩]
    "shot.png").2.2.1 (by decide)

/-! ## The on-animate callback -/

/-- A non-negative exact result below a bound that does not overflow rounds to its rounded
magnitude. -/
theorem F32.round_of_nonneg {q : ℚ} (B : ℚ) (h0 : 0 ≤ q) (hq : q ≤ B)
    (hB : F32.rndMag B < 2 ^ (128 : ℕ)) : F32.round q = F32.fin (F32.rndMag q) := by
  have h1 : F32.rndMag q ≤ F32.rndMag B := F32.rndMag_mono h0 hq
  unfold F32.round
  simp only [abs_of_nonneg h0]
  rw [if_neg (not_le.mpr (lt_of_le_of_lt h1 hB)), if_neg (not_lt.mpr h0)]

/-- Evaluation of `round` at a positive normal value from its binade `k` and its rounded
significand `m`. -/
theorem F32.round_eval {q : ℚ} (k m : ℤ) (h1 : 2 ^ k ≤ q) (h2 : q < 2 ^ (k + 1))
    (hk : -126 ≤ k) (hm1 : (m : ℚ) - 1 / 2 < q / 2 ^ (k - 23))
    (hm2 : q / 2 ^ (k - 23) < m + 1 / 2) (hlt : (m : ℚ) * 2 ^ (k - 23) < 2 ^ (128 : ℕ)) :
    F32.round q = F32.fin (m * 2 ^ (k - 23)) := by
  have hq : 0 ≤ q := ((F32.two_zpow_pos k).trans_le h1).le
  have he := F32.rndMag_eval k m h1 h2 hk hm1 hm2
  rw [F32.round_of_nonneg q hq le_rfl (by rw [he]; exact hlt), he]

/-- Zero rounds to zero. -/
theorem F32.round_zero : F32.round 0 = F32.fin 0 := by
  rw [F32.round_of_nonneg 0 le_rfl le_rfl (by rw [F32.rndMag_zero]; norm_num), F32.rndMag_zero]

/-- The constant `0.075f` is `10066330 · 2^-27`. -/
theorem Showcase.kMaxZoom_eq : Showcase.kMaxZoom = F32.fin (5033165 / 67108864) := by
  unfold Showcase.kMaxZoom
  rw [F32.round_eval (-4) 10066330] <;> norm_num

/-- Evaluation of `round` with the result given as a rational `v`. -/
theorem F32.round_eq_of {q : ℚ} (k m : ℤ) (v : ℚ) (hv : v = m * 2 ^ (k - 23))
    (h1 : 2 ^ k ≤ q) (h2 : q < 2 ^ (k + 1)) (hk : -126 ≤ k)
    (hm1 : (m : ℚ) - 1 / 2 < q / 2 ^ (k - 23)) (hm2 : q / 2 ^ (k - 23) < m + 1 / 2)
    (hlt : (m : ℚ) * 2 ^ (k - 23) < 2 ^ (128 : ℕ)) : F32.round q = F32.fin v := by
  rw [hv]
  exact F32.round_eval k m h1 h2 hk hm1 hm2 hlt

/-- Subtraction of finite values rounds the exact difference. -/
theorem F32.sub_fin (a b : ℚ) : F32.sub (F32.fin a) (F32.fin b) = F32.round (a - b) := by
  simp [F32.sub, F32.neg, F32.add, sub_eq_add_neg]

/-- The value `1.0f` is a binary32 number. -/
theorem F32.round_one : F32.round 1 = F32.fin 1 := by
  apply F32.round_eq_of 0 8388608 <;> norm_num

/-- The code's zoom expression as a function of a finite progress value. -/
theorem Showcase.zoom_fin (p : ℚ) :
    F32.add (F32.mul Showcase.kMaxZoom (F32.sub F32.one (F32.fin p))) F32.one =
      F32.add (F32.mul (F32.fin (5033165 / 67108864)) (F32.round (1 - p))) (F32.fin 1) := by
  rw [Showcase.kMaxZoom_eq, F32.one, F32.sub_fin]

/-- Zoom at progress `0`: `1.0f + 0.075f = 9017754 · 2^-23`. -/
theorem Showcase.zoom_at_zero :
    F32.add (F32.mul Showcase.kMaxZoom (F32.sub F32.one (F32.fin 0))) F32.one =
      F32.fin (4508877 / 4194304) := by
  have e1 : F32.round (1 - 0) = F32.fin 1 := by rw [sub_zero]; exact F32.round_one
  have e2 : F32.round (5033165 / 67108864 * 1) = F32.fin (5033165 / 67108864) := by
    apply F32.round_eq_of (-4) 10066330 <;> norm_num
  have e3 : F32.round (5033165 / 67108864 + 1) = F32.fin (4508877 / 4194304) := by
    apply F32.round_eq_of 0 9017754 <;> norm_num
  rw [Showcase.zoom_fin, e1]
  simp only [F32.mul, F32.add, e2, e3]

/-- Zoom at progress `0.25`: `8860467 · 2^-23`. -/
theorem Showcase.zoom_at_quarter :
    F32.add (F32.mul Showcase.kMaxZoom (F32.sub F32.one (F32.fin (1 / 4)))) F32.one =
      F32.fin (8860467 / 8388608) := by
  have e1 : F32.round (1 - 1 / 4) = F32.fin (3 / 4) := by
    apply F32.round_eq_of (-1) 12582912 <;> norm_num
  have e2 : F32.round (5033165 / 67108864 * (3 / 4)) = F32.fin (15099495 / 268435456) := by
    apply F32.round_eq_of (-5) 15099495 <;> norm_num
  have e3 : F32.round (15099495 / 268435456 + 1) = F32.fin (8860467 / 8388608) := by
    apply F32.round_eq_of 0 8860467 <;> norm_num
  rw [Showcase.zoom_fin, e1]
  simp only [F32.mul, F32.add, e2, e3]

/-- Zoom at progress `0.5`: `8703181 · 2^-23`. -/
theorem Showcase.zoom_at_half :
    F32.add (F32.mul Showcase.kMaxZoom (F32.sub F32.one (F32.fin (1 / 2)))) F32.one =
      F32.fin (8703181 / 8388608) := by
  have e1 : F32.round (1 - 1 / 2) = F32.fin (1 / 2) := by
    apply F32.round_eq_of (-1) 8388608 <;> norm_num
  have e2 : F32.round (5033165 / 67108864 * (1 / 2)) = F32.fin (5033165 / 134217728) := by
    apply F32.round_eq_of (-5) 10066330 <;> norm_num
  have e3 : F32.round (5033165 / 134217728 + 1) = F32.fin (8703181 / 8388608) := by
    apply F32.round_eq_of 0 8703181 <;> norm_num
  rw [Showcase.zoom_fin, e1]
  simp only [F32.mul, F32.add, e2, e3]

/-- Zoom at progress `1`: exactly `1.0f`. -/
theorem Showcase.zoom_at_one :
    F32.add (F32.mul Showcase.kMaxZoom (F32.sub F32.one (F32.fin 1))) F32.one = F32.fin 1 := by
  have e1 : F32.round (1 - 1) = F32.fin 0 := by rw [sub_self]; exact F32.round_zero
  have e2 : F32.round (5033165 / 67108864 * 0) = F32.fin 0 := by
    rw [mul_zero]; exact F32.round_zero
  have e3 : F32.round (0 + 1) = F32.fin 1 := by rw [zero_add]; exact F32.round_one
  rw [Showcase.zoom_fin, e1]
  simp only [F32.mul, F32.add, e2, e3]

/-- The uniforms written by the on-animate lambda. -/
theorem Showcase.onAnimate_uniforms_eq (s : Showcase) (p : F32) :
    (s.onAnimate p).1.uniforms "u_zoom" =
      some (F32.add (F32.mul Showcase.kMaxZoom (F32.sub F32.one p)) F32.one) ∧
    (s.onAnimate p).1.uniforms "u_alpha" = some (F32.mul p p) := by
  constructor <;> simp [Showcase.onAnimate, Showcase.setUniformValue]

/-- The exact value `0.075·(1−p) + 1` rounded once to binary32, at the four sampled
progress values. -/
theorem Showcase.zoom_exact_samples :
    F32.round (3 / 40 * (1 - 0) + 1) = F32.fin (4508877 / 4194304) ∧
    F32.round (3 / 40 * (1 - 1 / 4) + 1) = F32.fin (8860467 / 8388608) ∧
    F32.round (3 / 40 * (1 - 1 / 2) + 1) = F32.fin (8703181 / 8388608) ∧
    F32.round (3 / 40 * (1 - 1) + 1) = F32.fin 1 := by
  refine ⟨?_, ?_, ?_, ?_⟩
  · apply F32.round_eq_of 0 9017754 <;> norm_num
  · apply F32.round_eq_of 0 8860467 <;> norm_num
  · apply F32.round_eq_of 0 8703181 <;> norm_num
  · apply F32.round_eq_of 0 8388608 <;> norm_num

/-- The squares of the four sampled progress values are computed without rounding. -/
theorem Showcase.alpha_samples :
    F32.mul (F32.fin 0) (F32.fin 0) = F32.fin (0 * 0) ∧
    F32.mul (F32.fin (1 / 4)) (F32.fin (1 / 4)) = F32.fin (1 / 4 * (1 / 4)) ∧
    F32.mul (F32.fin (1 / 2)) (F32.fin (1 / 2)) = F32.fin (1 / 2 * (1 / 2)) ∧
    F32.mul (F32.fin 1) (F32.fin 1) = F32.fin (1 * 1) := by
  refine ⟨?_, ?_, ?_, ?_⟩
  · simp only [F32.mul, mul_zero]; exact F32.round_zero
  · simp only [F32.mul]; apply F32.round_eq_of (-4) 8388608 <;> norm_num
  · simp only [F32.mul]; apply F32.round_eq_of (-2) 8388608 <;> norm_num
  · simp only [F32.mul, mul_one]; exact F32.round_one

/-- C3: for every progress value `p` the on-animate lambda sets `u_zoom` to
`kMaxZoom * (1.0f - p) + 1.0f` with `kMaxZoom = 0.075f` and `u_alpha` to `p * p` (float
operations); at `p = 0` the zoom is `1.0f + kMaxZoom`, at `p = 1` it is `1.0f`; and for
`p` in `{0, 0.25, 0.5, 1}` the zoom is the binary32 value nearest to the exact
`0.075·(1−p) + 1` and the alpha is exactly `p²`. -/
theorem Showcase.onAnimate_zoom_alpha (s : Showcase) (p : F32) :
    (s.onAnimate p).1.uniforms "u_zoom" =
      some (F32.add (F32.mul Showcase.kMaxZoom (F32.sub F32.one p)) F32.one) ∧
    (s.onAnimate p).1.uniforms "u_alpha" = some (F32.mul p p) ∧
    Showcase.kMaxZoom = F32.round (3 / 40) ∧
    (s.onAnimate (F32.fin 0)).1.uniforms "u_zoom" = some (F32.add F32.one Showcase.kMaxZoom) ∧
    (s.onAnimate (F32.fin 1)).1.uniforms "u_zoom" = some F32.one ∧
    ∀ q : ℚ, q = 0 ∨ q = 1 / 4 ∨ q = 1 / 2 ∨ q = 1 →
      (s.onAnimate (F32.fin q)).1.uniforms "u_zoom" = some (F32.round (3 / 40 * (1 - q) + 1)) ∧
      (s.onAnimate (F32.fin q)).1.uniforms "u_alpha" = some (F32.fin (q * q)) := by
  refine ⟨(Showcase.onAnimate_uniforms_eq s p).1, (Showcase.onAnimate_uniforms_eq s p).2, rfl,
    ?_, ?_, ?_⟩
  · rw [(Showcase.onAnimate_uniforms_eq s _).1, Showcase.zoom_at_zero, Showcase.kMaxZoom_eq,
      F32.one]
    have e : F32.round (1 + 5033165 / 67108864) = F32.fin (4508877 / 4194304) := by
      apply F32.round_eq_of 0 9017754 <;> norm_num
    simp only [F32.add, e]
  · rw [(Showcase.onAnimate_uniforms_eq s _).1, Showcase.zoom_at_one, F32.one]
  · have hz := Showcase.zoom_exact_samples
    have ha := Showcase.alpha_samples
    rintro q (rfl | rfl | rfl | rfl)
    · rw [(Showcase.onAnimate_uniforms_eq s _).1, (Showcase.onAnimate_uniforms_eq s _).2,
        Showcase.zoom_at_zero, hz.1, ha.1]
      exact ⟨rfl, rfl⟩
    · rw [(Showcase.onAnimate_uniforms_eq s _).1, (Showcase.onAnimate_uniforms_eq s _).2,
        Showcase.zoom_at_quarter, hz.2.1, ha.2.1]
      exact ⟨rfl, rfl⟩
    · rw [(Showcase.onAnimate_uniforms_eq s _).1, (Showcase.onAnimate_uniforms_eq s _).2,
        Showcase.zoom_at_half, hz.2.2.1, ha.2.2.1]
      exact ⟨rfl, rfl⟩
    · rw [(Showcase.onAnimate_uniforms_eq s _).1, (Showcase.onAnimate_uniforms_eq s _).2,
        Showcase.zoom_at_one, hz.2.2.2, ha.2.2.2]
      exact ⟨rfl, rfl⟩

/-- The theorem for C3 at `p = 0.25` on the freshly constructed showcase. -/
theorem Showcase.onAnimate_zoom_alpha_witness :
    (Showcase.constructed.onAnimate (F32.fin (1 / 4))).1.uniforms "u_zoom" =
      some (F32.round (3 / 40 * (1 - 1 / 4) + 1)) ∧
    (Showcase.constructed.onAnimate (F32.fin (1 / 4))).1.uniforms "u_alpha" =
      some (F32.fin (1 / 4 * (1 / 4))) :=
  (Showcase.onAnimate_zoom_alpha Showcase.constructed (F32.fin (1 / 4))).2.2.2.2.2 (1 / 4)
    (Or.inr (Or.inl rfl))

/-- The magnitude `1` is on the binary32 grid. -/
theorem F32.rndMag_one : F32.rndMag 1 = 1 := by
  rw [F32.rndMag_eval 0 8388608] <;> norm_num

/-- The magnitude `2` is on the binary32 grid. -/
theorem F32.rndMag_two : F32.rndMag 2 = 2 := by
  rw [F32.rndMag_eval 1 8388608] <;> norm_num

/-- For a progress value in `[0, 1]` no operation of the zoom expression overflows, and
the result is the thrice rounded `0.075f·(1−p) + 1`. -/
theorem Showcase.zoom_fin_of_unit (p : ℚ) (h0 : 0 ≤ p) (h1 : p ≤ 1) :
    F32.add (F32.mul Showcase.kMaxZoom (F32.sub F32.one (F32.fin p))) F32.one =
      F32.fin (F32.rndMag (F32.rndMag (5033165 / 67108864 * F32.rndMag (1 - p)) + 1)) := by
  have hx0 : (0 : ℚ) ≤ 1 - p := by linarith
  have hx1 : (1 : ℚ) - p ≤ 1 := by linarith
  have hone : F32.rndMag 1 < 2 ^ (128 : ℕ) := by rw [F32.rndMag_one]; norm_num
  have htwo : F32.rndMag 2 < 2 ^ (128 : ℕ) := by rw [F32.rndMag_two]; norm_num
  have e1 : F32.round (1 - p) = F32.fin (F32.rndMag (1 - p)) :=
    F32.round_of_nonneg 1 hx0 hx1 hone
  have hr0 : 0 ≤ F32.rndMag (1 - p) := F32.rndMag_nonneg hx0
  have hr1 : F32.rndMag (1 - p) ≤ 1 := by
    have := F32.rndMag_mono hx0 hx1
    rwa [F32.rndMag_one] at this
  have hy0 : (0 : ℚ) ≤ 5033165 / 67108864 * F32.rndMag (1 - p) :=
    mul_nonneg (by norm_num) hr0
  have hy1 : (5033165 / 67108864 : ℚ) * F32.rndMag (1 - p) ≤ 1 := by nlinarith
  have e2 : F32.round (5033165 / 67108864 * F32.rndMag (1 - p)) =
      F32.fin (F32.rndMag (5033165 / 67108864 * F32.rndMag (1 - p))) :=
    F32.round_of_nonneg 1 hy0 hy1 hone
  have ht0 : 0 ≤ F32.rndMag (5033165 / 67108864 * F32.rndMag (1 - p)) := F32.rndMag_nonneg hy0
  have ht1 : F32.rndMag (5033165 / 67108864 * F32.rndMag (1 - p)) ≤ 1 := by
    have := F32.rndMag_mono hy0 hy1
    rwa [F32.rndMag_one] at this
  have e3 : F32.round (F32.rndMag (5033165 / 67108864 * F32.rndMag (1 - p)) + 1) =
      F32.fin (F32.rndMag (F32.rndMag (5033165 / 67108864 * F32.rndMag (1 - p)) + 1)) :=
    F32.round_of_nonneg 2 (by linarith) (by linarith) htwo
  rw [Showcase.zoom_fin, e1]
  simp only [F32.mul, F32.add, e2, e3]

/-- The thrice rounded zoom value does not increase with the progress value. -/
theorem Showcase.zoom_value_antitone {p q : ℚ} (hpq : p ≤ q) (h1 : q ≤ 1) :
    F32.rndMag (F32.rndMag (5033165 / 67108864 * F32.rndMag (1 - q)) + 1) ≤
      F32.rndMag (F32.rndMag (5033165 / 67108864 * F32.rndMag (1 - p)) + 1) := by
  have hx0 : (0 : ℚ) ≤ 1 - q := by linarith
  have ha : F32.rndMag (1 - q) ≤ F32.rndMag (1 - p) := F32.rndMag_mono hx0 (by linarith)
  have hr0 : 0 ≤ F32.rndMag (1 - q) := F32.rndMag_nonneg hx0
  have hb : F32.rndMag (5033165 / 67108864 * F32.rndMag (1 - q)) ≤
      F32.rndMag (5033165 / 67108864 * F32.rndMag (1 - p)) :=
    F32.rndMag_mono (mul_nonneg (by norm_num) hr0)
      (mul_le_mul_of_nonneg_left ha (by norm_num))
  have ht0 : 0 ≤ F32.rndMag (5033165 / 67108864 * F32.rndMag (1 - q)) :=
    F32.rndMag_nonneg (mul_nonneg (by norm_num) hr0)
  exact F32.rndMag_mono (by linarith) (by linarith)

/-- C4, as stated, fails: at progress `0` the zoom uniform is `9017754 · 2^-23`
(`1.0f + 0.075f`), not `1.0`; at progress `1` it is `1.0`, which is smaller, so the zoom
is not non-decreasing in progress. -/
theorem Showcase.onAnimate_zoom_not_nondecreasing :
    (Showcase.constructed.onAnimate (F32.fin 0)).1.uniforms "u_zoom" =
      some (F32.fin (4508877 / 4194304)) ∧
    (Showcase.constructed.onAnimate (F32.fin 0)).1.uniforms "u_zoom" ≠ some (F32.fin 1) ∧
    (Showcase.constructed.onAnimate (F32.fin 1)).1.uniforms "u_zoom" = some (F32.fin 1) ∧
    (1 : ℚ) < 4508877 / 4194304 := by
  have h0 := (Showcase.onAnimate_uniforms_eq Showcase.constructed (F32.fin 0)).1
  have h1 := (Showcase.onAnimate_uniforms_eq Showcase.constructed (F32.fin 1)).1
  rw [Showcase.zoom_at_zero] at h0
  rw [Showcase.zoom_at_one] at h1
  refine ⟨h0, ?_, h1, by norm_num⟩
  rw [h0]
  intro h
  have h2 := F32.fin.inj (Option.some.inj h)
  norm_num at h2

/-- C4 (amended): the zoom set by the on-animate lambda interpolates between the fixed
maximum `1.0f + kMaxZoom` and `1.0` as progress goes from 0 to 1: at progress `0` it is the
maximum, at progress `1` it is `1.0`, and for progress values `p ≤ q` in `[0, 1]` both
zooms are finite, lie between `1.0` and the maximum, and the zoom at `q` is not larger
than the zoom at `p`. -/
theorem Showcase.onAnimate_zoom_antitone (s : Showcase) (p q : ℚ) (h0 : 0 ≤ p) (hpq : p ≤ q)
    (h1 : q ≤ 1) :
    (s.onAnimate (F32.fin 0)).1.uniforms "u_zoom" = some (F32.add F32.one Showcase.kMaxZoom) ∧
    F32.add F32.one Showcase.kMaxZoom = F32.fin (4508877 / 4194304) ∧
    (s.onAnimate (F32.fin 1)).1.uniforms "u_zoom" = some (F32.fin 1) ∧
    ∃ zp zq : ℚ,
      (s.onAnimate (F32.fin p)).1.uniforms "u_zoom" = some (F32.fin zp) ∧
      (s.onAnimate (F32.fin q)).1.uniforms "u_zoom" = some (F32.fin zq) ∧
      zq ≤ zp ∧ 1 ≤ zq ∧ zp ≤ 4508877 / 4194304 := by
  have hmax : F32.add F32.one Showcase.kMaxZoom = F32.fin (4508877 / 4194304) := by
    rw [Showcase.kMaxZoom_eq, F32.one]
    have e : F32.round (1 + 5033165 / 67108864) = F32.fin (4508877 / 4194304) := by
      apply F32.round_eq_of 0 9017754 <;> norm_num
    simp only [F32.add, e]
  refine ⟨?_, hmax, ?_, ?_⟩
  · rw [(Showcase.onAnimate_uniforms_eq s _).1, Showcase.zoom_at_zero, hmax]
  · rw [(Showcase.onAnimate_uniforms_eq s _).1, Showcase.zoom_at_one]
  · have hq0 : 0 ≤ q := h0.trans hpq
    have hp1 : p ≤ 1 := hpq.trans h1
    refine ⟨_, _, ?_, ?_, Showcase.zoom_value_antitone hpq h1, ?_, ?_⟩
    · rw [(Showcase.onAnimate_uniforms_eq s _).1, Showcase.zoom_fin_of_unit p h0 hp1]
    · rw [(Showcase.onAnimate_uniforms_eq s _).1, Showcase.zoom_fin_of_unit q hq0 h1]
    · have hx0 : (0 : ℚ) ≤ 1 - q := by linarith
      have ht0 : 0 ≤ F32.rndMag (5033165 / 67108864 * F32.rndMag (1 - q)) :=
        F32.rndMag_nonneg (mul_nonneg (by norm_num) (F32.rndMag_nonneg hx0))
      have := F32.rndMag_mono (x := 1)
        (y := F32.rndMag (5033165 / 67108864 * F32.rndMag (1 - q)) + 1) (by norm_num)
        (by linarith)
      rwa [F32.rndMag_one] at this
    · have hz := Showcase.zoom_at_zero
      rw [Showcase.zoom_fin_of_unit 0 le_rfl (by norm_num)] at hz
      have hz2 := F32.fin.inj hz
      have := Showcase.zoom_value_antitone h0 hp1
      rwa [hz2] at this

/-- The theorem for C4 (amended) between progress `0.25` and `0.5`. -/
theorem Showcase.onAnimate_zoom_antitone_witness :
    ((0 : ℚ) ≤ 1 / 4 ∧ (1 / 4 : ℚ) ≤ 1 / 2 ∧ (1 / 2 : ℚ) ≤ 1) ∧
    ∃ zp zq : ℚ,
      (Showcase.constructed.onAnimate (F32.fin (1 / 4))).1.uniforms "u_zoom" =
        some (F32.fin zp) ∧
      (Showcase.constructed.onAnimate (F32.fin (1 / 2))).1.uniforms "u_zoom" =
        some (F32.fin zq) ∧
      zq ≤ zp ∧ 1 ≤ zq ∧ zp ≤ 4508877 / 4194304 :=
  ⟨⟨by norm_num, by norm_num, by norm_num⟩,
   (Showcase.onAnimate_zoom_antitone Showcase.constructed (1 / 4) (1 / 2) (by norm_num)
      (by norm_num) (by norm_num)).2.2.2⟩

/-! ## Debug text layout -/

/-- An `int` value in `[0, 2^31)` survives the round trip through `size_t` division. -/
theorem DebugInfo.lineHeight_eq (height : Int) (n : Nat) (hn : 1 ≤ n) (h0 : 0 ≤ height)
    (hmax : height < 2 ^ 31) : DebugInfo.lineHeight height n = .ok (height / (n : Int)) := by
  have hn0 : n ≠ 0 := by omega
  have hnpos : (0 : Int) < n := by omega
  have hq0 : 0 ≤ height / (n : Int) := Int.ediv_nonneg h0 hnpos.le
  have hq1 : height / (n : Int) ≤ height := Int.ediv_le_self _ h0
  have hs : ((toSizeT height / n : Nat) : Int) = height / (n : Int) := by
    unfold toSizeT
    rw [Int.emod_eq_of_lt h0 (by omega)]
    push_cast
    rw [Int.toNat_of_nonneg h0]
  unfold DebugInfo.lineHeight
  rw [if_neg hn0, hs]
  unfold toInt32
  congr 1
  omega

/-- The font size is defined for every line height in `[0, 2^31)`. -/
theorem DebugInfo.textHeight_ok (lh : Int) (h0 : 0 ≤ lh) (hmax : lh < 2 ^ 31) :
    ∃ font : Int, DebugInfo.textHeight lh = .ok font ∧ 0 ≤ font := by
  have hB : F32.rndMag 2147483648 = 2147483648 := by
    rw [F32.rndMag_eval 31 8388608] <;> norm_num
  have hC : F32.rndMag 1395864320 = 1395864320 := by
    rw [F32.rndMag_eval 30 10905190] <;> norm_num
  have hk : F32.round (13 / 20) = F32.fin (5452595 / 8388608) := by
    apply F32.round_eq_of (-1) 10905190 <;> norm_num
  have hl0 : (0 : ℚ) ≤ (lh : ℚ) := by exact_mod_cast h0
  have hl1 : (lh : ℚ) ≤ 2147483648 := by
    have : lh ≤ 2147483648 := by omega
    exact_mod_cast this
  have e1 : F32.ofInt lh = F32.fin (F32.rndMag lh) :=
    F32.round_of_nonneg 2147483648 hl0 hl1 (by rw [hB]; norm_num)
  have hr0 : 0 ≤ F32.rndMag lh := F32.rndMag_nonneg hl0
  have hr1 : F32.rndMag lh ≤ 2147483648 := by
    have := F32.rndMag_mono hl0 hl1
    rwa [hB] at this
  have hy0 : (0 : ℚ) ≤ F32.rndMag lh * (5452595 / 8388608) := mul_nonneg hr0 (by norm_num)
  have hy1 : F32.rndMag lh * (5452595 / 8388608) ≤ 1395864320 := by linarith
  have e2 : F32.round (F32.rndMag lh * (5452595 / 8388608)) =
      F32.fin (F32.rndMag (F32.rndMag lh * (5452595 / 8388608))) :=
    F32.round_of_nonneg 1395864320 hy0 hy1 (by rw [hC]; norm_num)
  have ht0 : 0 ≤ F32.rndMag (F32.rndMag lh * (5452595 / 8388608)) := F32.rndMag_nonneg hy0
  have ht1 : F32.rndMag (F32.rndMag lh * (5452595 / 8388608)) ≤ 1395864320 := by
    have := F32.rndMag_mono hy0 hy1
    rwa [hC] at this
  have hf0 : 0 ≤ ⌊F32.rndMag (F32.rndMag lh * (5452595 / 8388608))⌋ := Int.floor_nonneg.mpr ht0
  have hf1 : ⌊F32.rndMag (F32.rndMag lh * (5452595 / 8388608))⌋ ≤ 1395864320 := by
    have h := Int.floor_le (F32.rndMag (F32.rndMag lh * (5452595 / 8388608)))
    have h2 : ((⌊F32.rndMag (F32.rndMag lh * (5452595 / 8388608))⌋ : ℤ) : ℚ) ≤
        ((1395864320 : ℤ) : ℚ) := by push_cast; linarith
    exact_mod_cast h2
  refine ⟨⌊F32.rndMag (F32.rndMag lh * (5452595 / 8388608))⌋, ?_, hf0⟩
  unfold DebugInfo.textHeight
  rw [e1, hk]
  simp only [F32.mul, e2, F32.toInt?, if_pos ht0]
  rw [if_pos ⟨by omega, by omega⟩]

/-- The text loop issues one call per string, in list order, the string of index `j` in
the slot that starts at `lineHeight * j`. -/
theorem DebugInfo.textLoop_eq (font lh width : Int) (info : List String) (i : Nat) :
    DebugInfo.textLoop font lh width info i =
      (info.enumFrom i).map (fun js =>
        Event.text js.2 font .kLeft lh (toInt32 (lh * (js.1 : Int))) width lh) := by
  induction info generalizing i with
  | nil => rfl
  | cons s rest ih => simp [DebugInfo.textLoop, List.enumFrom, ih]

/-- C8: for a list of `N ≥ 1` diagnostic strings and a surface height `0 ≤ h` (an `int`),
`DebugInfo::draw` completes and issues exactly `N` text calls, in list order, the call of
index `i` drawing string `i` in the slot that starts at `y = i·⌊h/N⌋` and has height
`⌊h/N⌋`; the slots have one common height, consecutive slots do not overlap, and together
they fit in the surface height: `N·⌊h/N⌋ ≤ h`. -/
theorem DebugInfo.draw_text_slots (width height : Int) (info : List String)
    (hN : 1 ≤ info.length) (h0 : 0 ≤ height) (hmax : height < 2 ^ 31) :
    ∃ (font : Int) (evs : List Event),
      DebugInfo.draw width height info = .ok evs ∧
      evs.filter Event.isTextCall =
        info.enum.map (fun js =>
          Event.text js.2 font .kLeft (height / (info.length : Int))
            ((js.1 : Int) * (height / (info.length : Int))) width
            (height / (info.length : Int))) ∧
      (evs.filter Event.isTextCall).length = info.length ∧
      0 ≤ height / (info.length : Int) ∧
      (∀ i j : Nat, i < j →
        (i : Int) * (height / (info.length : Int)) + height / (info.length : Int) ≤
          (j : Int) * (height / (info.length : Int))) ∧
      (info.length : Int) * (height / (info.length : Int)) ≤ height := by
  have hnpos : (0 : Int) < (info.length : Int) := by omega
  have hq0 : 0 ≤ height / (info.length : Int) := Int.ediv_nonneg h0 hnpos.le
  have hfit : (info.length : Int) * (height / (info.length : Int)) ≤ height :=
    Int.mul_ediv_self_le hnpos.ne'
  have hlh := DebugInfo.lineHeight_eq height info.length hN h0 hmax
  obtain ⟨font, hfont, _⟩ := DebugInfo.textHeight_ok (height / (info.length : Int)) hq0
    (lt_of_le_of_lt (Int.ediv_le_self _ h0) hmax)
  have hwrap : ∀ js ∈ info.enum,
      toInt32 (height / (info.length : Int) * (js.1 : Int)) =
        (js.1 : Int) * (height / (info.length : Int)) := by
    intro js hjs
    have hlt : js.1 < info.length := by
      have := List.fst_lt_of_mem_enum hjs
      exact this
    have h1 : (js.1 : Int) * (height / (info.length : Int)) ≤
        (info.length : Int) * (height / (info.length : Int)) :=
      mul_le_mul_of_nonneg_right (by omega) hq0
    have h2 : 0 ≤ (js.1 : Int) * (height / (info.length : Int)) :=
      mul_nonneg (by omega) hq0
    unfold toInt32
    rw [mul_comm]
    omega
  have htexts : (DebugInfo.textLoop font (height / (info.length : Int)) width info 0) =
      info.enum.map (fun js =>
          Event.text js.2 font .kLeft (height / (info.length : Int))
            ((js.1 : Int) * (height / (info.length : Int))) width
            (height / (info.length : Int))) := by
    rw [DebugInfo.textLoop_eq]
    apply List.map_congr_left
    intro js hjs
    rw [hwrap js hjs]
  have hdraw : DebugInfo.draw width height info =
      .ok ([Event.setColor 0x88000000, Event.fill 0 0 width height, Event.setColor 0xffffffff]
        ++ DebugInfo.textLoop font (height / (info.length : Int)) width info 0
        ++ [Event.redraw .debugInfo]) := by
    unfold DebugInfo.draw
    rw [hlh]
    simp only [bind, Except.bind, hfont, pure, Except.pure]
  have hall : ∀ e ∈ DebugInfo.textLoop font (height / (info.length : Int)) width info 0,
      Event.isTextCall e = true := by
    intro e he
    rw [htexts] at he
    obtain ⟨js, _, rfl⟩ := List.mem_map.mp he
    rfl
  have hfilter : ([Event.setColor 0x88000000, Event.fill 0 0 width height,
        Event.setColor 0xffffffff]
        ++ DebugInfo.textLoop font (height / (info.length : Int)) width info 0
        ++ [Event.redraw .debugInfo]).filter Event.isTextCall =
      DebugInfo.textLoop font (height / (info.length : Int)) width info 0 := by
    simp only [List.filter_append, List.filter_eq_self.mpr hall]
    simp [Event.isTextCall]
  refine ⟨font, _, hdraw, ?_, ?_, hq0, ?_, hfit⟩
  · rw [hfilter, htexts]
  · rw [hfilter, htexts, List.length_map, List.enum_length]
  · intro i j hij
    have : ((i : Int) + 1) * (height / (info.length : Int)) ≤
        (j : Int) * (height / (info.length : Int)) :=
      mul_le_mul_of_nonneg_right (by omega) hq0
    linarith

/-- The theorem for C8 on three strings and a surface of height 100: three slots of
height 33 at `y = 0, 33, 66`. -/
theorem DebugInfo.draw_text_slots_witness :
    (1 ≤ ["fps", "frames", "size"].length ∧ (0 : Int) ≤ 100 ∧ (100 : Int) < 2 ^ 31) ∧
    ∃ (font : Int) (evs : List Event),
      DebugInfo.draw 800 100 ["fps", "frames", "size"] = .ok evs ∧
      evs.filter Event.isTextCall =
        [Event.text "fps" font .kLeft 33 0 800 33,
         Event.text "frames" font .kLeft 33 33 800 33,
         Event.text "size" font .kLeft 33 66 800 33] :=
  ⟨⟨by decide, by decide, by decide⟩,
   (DebugInfo.draw_text_slots 800 100 ["fps", "frames", "size"] (by decide) (by decide)
      (by decide)).imp fun _ h => h.imp fun _ h2 => ⟨h2.1, h2.2.1⟩⟩

/-- C9 fails on the code: with an empty diagnostic list the statement
`int line_height = height() / info.size();` divides by zero, whatever the surface size,
before any text call and before the redraw request. -/
theorem DebugInfo.draw_empty_divides_by_zero (width height : Int) :
    DebugInfo.draw width height [] = .error Fault.divisionByZero ∧
    DebugInfo.lineHeight height ([] : List String).length = .error Fault.divisionByZero :=
  ⟨rfl, rfl⟩

end Visage
